import Mathlib

/-!
Formal model of the sync engine of the notion-sync repository
(src/sync_utils.py, src/incremental_sync.py, src/autonote.py).

Strings are modelled as lists of characters; the Python string
operations used by the code (startswith, find, strip, split) are
reproduced below on that representation.  The content hash
(calculate_content_hash, an MD5 hex digest) is an external library
call; every definition that hashes takes the digest function as an
explicit parameter hashFn, only its equality/inequality behaviour
matters to the code.  Filesystem and network effects are made
explicit: the filesystem is a partial map from paths to file
contents, HTTP responses are passed in as values.
-/

namespace NotionSync

/-- Model of a Python str as a list of characters. -/
abbrev Str := List Char

/-- Convert a Lean string literal to the model representation. -/
def str (s : String) : Str := s.data

/-- The three-character delimiter "---" used by the frontmatter format. -/
def dashes : Str := ['-', '-', '-']

/-- Python whitespace (ASCII part), as tested by str.strip(). -/
def isPySpace (c : Char) : Bool :=
  c = ' ' || c = '\t' || c = '\n' || c = '\r' || c = '\x0b' || c = '\x0c'

/-- Python s.strip(): remove leading and trailing whitespace. -/
def pyStrip (l : Str) : Str :=
  ((l.dropWhile isPySpace).reverse.dropWhile isPySpace).reverse

/-- Python s.split(sep) for a one-character separator: list of fields. -/
def splitOnChar (sep : Char) : Str → List Str
  | [] => [[]]
  | c :: cs =>
    match splitOnChar sep cs with
    | [] => [[c]]
    | h :: t => if c = sep then [] :: h :: t else (c :: h) :: t

/-- Python s.split(sep, 1) for a one-character separator: the part before
the first separator, and, when the separator occurs, the part after it. -/
def splitFirst (sep : Char) : Str → Str × Option Str
  | [] => ([], none)
  | c :: cs =>
    if c = sep then ([], some cs)
    else
      match splitFirst sep cs with
      | (before, r) => (c :: before, r)

/-- Worker for Python s.find(sub, start): scans l, which is the suffix of
the searched string beginning at index i, and returns the absolute index
of the first occurrence of sub, or none (Python returns -1). -/
def findSubAux : Str → Str → Nat → Option Nat
  | [], sub, i => if sub.isEmpty then some i else none
  | c :: cs, sub, i =>
    if sub.isPrefixOf (c :: cs) then some i else findSubAux cs sub (i + 1)

/-- Python slice s[a:b] (for a ≤ b). -/
def pySlice (l : Str) (a b : Nat) : Str := (l.take b).drop a

/-- Python s.lower() (ASCII model of Unicode lowercasing). -/
def pyLower (l : Str) : Str := l.map Char.toLower

/-- A typed Notion page property value, as read by generate_frontmatter
(sync_utils.py:146-174).  Rich-text arrays are modelled by the list of
their plain_text fields; a missing "name"/"start" subfield is modelled
by none, an unrecognized property type by unsupported. -/
inductive PropVal where
  | title (texts : List Str)
  | rich_text (texts : List Str)
  | select (name : Option Str)
  | multi_select (names : List Str)
  | checkbox (b : Bool)
  | date (start : Option Str)
  | unsupported
deriving DecidableEq

/-- A Notion content block, as read by notion_blocks_to_markdown
(sync_utils.py:59-127); rich text is the list of plain_text fields. -/
inductive Block where
  | paragraph (rich : List Str)
  | heading_1 (rich : List Str)
  | heading_2 (rich : List Str)
  | heading_3 (rich : List Str)
  | bulleted_list_item (rich : List Str)
  | numbered_list_item (rich : List Str)
  | to_do (rich : List Str) (checked : Bool)
  | code (rich : List Str) (language : Str)
  | unsupported
deriving DecidableEq

/-- The parsed body of a blocks endpoint response (its "results" key). -/
structure BlocksResp where
  results : List Block
deriving DecidableEq

/-- A page row of a database query response: its id, last_edited_time
and properties, the only fields the sync engine reads. -/
structure Page where
  id : Str
  last_edited_time : Str
  properties : List (Str × PropVal)
deriving DecidableEq

/-- One entry of the .notion_sync.json ledger, keyed by page id
(shape written by update_sync_metadata, sync_utils.py:278-283). -/
structure FileEntry where
  local_path : Str
  content_hash : Str
  last_edited_time : Str
  last_synced : Str
deriving DecidableEq

/-- The .notion_sync.json ledger: last_sync plus the files mapping,
modelled as an association list in insertion order (a Python dict). -/
structure Metadata where
  last_sync : Str
  files : List (Str × FileEntry)
deriving DecidableEq

/-- Python files[pid] lookup on the association-list model of a dict. -/
def lookupId : List (Str × FileEntry) → Str → Option FileEntry
  | [], _ => none
  | (k, v) :: rest, pid => if k = pid then some v else lookupId rest pid

/-- Python files[pid] = e on the association-list model of a dict:
replace in place when the key exists, append otherwise. -/
def upsert : List (Str × FileEntry) → Str → FileEntry → List (Str × FileEntry)
  | [], pid, e => [(pid, e)]
  | (k, v) :: rest, pid, e =>
    if k = pid then (pid, e) :: rest else (k, v) :: upsert rest pid e

/-- The filesystem: a partial map from paths to text file contents. -/
abbrev FS := Str → Option Str

/-- Concatenation of the plain_text fields of a rich-text array, as the
text_content accumulation loops of sync_utils.py:75-122. -/
def textContent (rich : List Str) : Str := rich.flatten

/-- Markdown rendered for a single block (one branch of the dispatch in
notion_blocks_to_markdown, sync_utils.py:71-125); unrecognized types
produce nothing. -/
def blockMarkdown : Block → Str
  | .paragraph r => textContent r ++ str "\n\n"
  | .heading_1 r => str "# " ++ textContent r ++ str "\n\n"
  | .heading_2 r => str "## " ++ textContent r ++ str "\n\n"
  | .heading_3 r => str "### " ++ textContent r ++ str "\n\n"
  | .bulleted_list_item r => str "- " ++ textContent r ++ str "\n"
  | .numbered_list_item r => str "1. " ++ textContent r ++ str "\n"
  | .to_do r checked =>
    str "- [" ++ (if checked then str "x" else str " ") ++ str "] " ++ textContent r ++ str "\n"
  | .code r language =>
    str "```" ++ language ++ str "\n" ++ textContent r ++ str "\n```\n\n"
  | .unsupported => []

/-- notion_blocks_to_markdown (sync_utils.py:59-127): concatenate the
per-block renderings in order. -/
def notion_blocks_to_markdown (blocks : BlocksResp) : Str :=
  (blocks.results.map blockMarkdown).flatten

/-- The frontmatter line contributed by one property
(generate_frontmatter, sync_utils.py:146-174).  Python truthiness of the
guarding get() calls is modelled by the emptiness tests: an empty list,
empty string or missing subfield emits nothing.  The title type writes
the literal key "title"; every other type writes the lowercased property
name. -/
def propLine : Str × PropVal → Str
  | (_, PropVal.title ts) =>
    match ts with
    | [] => []
    | t :: _ => str "title: \"" ++ t ++ str "\"\n"
  | (name, PropVal.rich_text ts) =>
    match ts with
    | [] => []
    | t :: _ => pyLower name ++ str ": \"" ++ t ++ str "\"\n"
  | (name, PropVal.select s?) =>
    match s? with
    | none => []
    | some s => if s = [] then [] else pyLower name ++ str ": " ++ s ++ str "\n"
  | (name, PropVal.multi_select items) =>
    let values := items.filter (fun v => v ≠ [])
    if values = [] then []
    else
      pyLower name ++ str ": [" ++
        List.intercalate (str ", ") (values.map (fun v => str "\"" ++ v ++ str "\"")) ++ str "]\n"
  | (name, PropVal.checkbox b) =>
    pyLower name ++ str ": " ++ (if b then str "true" else str "false") ++ str "\n"
  | (name, PropVal.date d?) =>
    match d? with
    | none => []
    | some d => if d = [] then [] else pyLower name ++ str ": " ++ d ++ str "\n"
  | (_, PropVal.unsupported) => []

/-- The property lines of the frontmatter, in dict (insertion) order. -/
def propLines (props : List (Str × PropVal)) : Str := (props.map propLine).flatten

/-- generate_frontmatter (sync_utils.py:129-177): opening delimiter,
notion_id line, last_edited_time line, property lines, closing delimiter
followed by a blank line. -/
def generate_frontmatter (props : List (Str × PropVal)) (page_id last_edited_time : Str) : Str :=
  str "---\n" ++ (str "notion_id: " ++ page_id ++ str "\n") ++
    (str "last_edited_time: " ++ last_edited_time ++ str "\n") ++
    propLines props ++ str "---\n\n"

/-- The character replacement of the filename sanitizer
(save_page_to_file, sync_utils.py:219): keep alphanumerics (ASCII model
of Python str.isalnum), spaces, hyphens and underscores, replace every
other character by an underscore. -/
def sanitizeChar (c : Char) : Char :=
  if c.isAlphanum || c = ' ' || c = '-' || c = '_' then c else '_'

/-- Title used for the filename (save_page_to_file, sync_utils.py:212-216):
the first property of type title with a nonempty rich-text array, else
"Untitled". -/
def titleOf : List (Str × PropVal) → Str
  | [] => str "Untitled"
  | (_, PropVal.title (t :: _)) :: _ => t
  | _ :: rest => titleOf rest

/-- save_page_to_file (sync_utils.py:191-237) as a pure function: returns
the file path and the full content written there.  The caller performs
the filesystem write; os.path.join is dir ++ "/" ++ filename. -/
def save_page_to_file (page : Page) (content : BlocksResp) (output_dir : Str) : Str × Str :=
  let page_id := page.id.filter (fun c => c ≠ '-')
  let title := titleOf page.properties
  let filename := title.map sanitizeChar ++ str ".md"
  let filepath := output_dir ++ str "/" ++ filename
  let markdown := notion_blocks_to_markdown content
  let frontmatter := generate_frontmatter page.properties page_id page.last_edited_time
  (filepath, frontmatter ++ markdown)

/-- create_sync_metadata (sync_utils.py:239-263): load the existing
ledger (or an empty one; the caller passes that state in) and stamp
last_sync with the current time. -/
def create_sync_metadata (meta : Metadata) (now : Str) : Metadata :=
  { meta with last_sync := now }

/-- update_sync_metadata (sync_utils.py:265-287): upsert the entry for
page_id with the given path, hash and remote timestamp, stamping
last_synced with the current time (datetime.now passed in as now); the
ledger is then persisted, which the model leaves implicit. -/
def update_sync_metadata (meta : Metadata) (page_id filepath content_hash last_edited_time now : Str) :
    Metadata :=
  { meta with files := upsert meta.files page_id ⟨filepath, content_hash, last_edited_time, now⟩ }

/-- check_local_changes (incremental_sync.py:190-235), given the ledger
files mapping read from .notion_sync.json: for each entry, skip when
local_path or content_hash is falsy (None is not produced by the writer,
so falsy is the empty string), skip when the file no longer exists,
otherwise report the path when the recomputed hash of the current file
content differs from the stored one. -/
def check_local_changes (hashFn : Str → Str) (fs : FS) (files : List (Str × FileEntry)) : List Str :=
  files.filterMap fun kv =>
    if kv.2.local_path = [] ∨ kv.2.content_hash = [] then none
    else
      match fs kv.2.local_path with
      | none => none
      | some content =>
        if hashFn content ≠ kv.2.content_hash then some kv.2.local_path else none

/-- extract_notion_id_from_frontmatter (incremental_sync.py:237-267),
applied to the file content: require the opening delimiter, locate the
closing delimiter by content.find("---", 3), strip the slice between
them, and return the stripped value of the first notion_id: line. -/
def findNotionIdLine : List Str → Option Str
  | [] => none
  | line :: rest =>
    if (str "notion_id:").isPrefixOf line then
      match splitFirst ':' line with
      | (_, some after) => some (pyStrip after)
      | (_, none) => none
    else findNotionIdLine rest

/-- See findNotionIdLine; this is the whole extraction function. -/
def extract_notion_id_from_frontmatter (content : Str) : Option Str :=
  if dashes.isPrefixOf content then
    match findSubAux (content.drop 3) dashes 3 with
    | none => none
    | some e => findNotionIdLine (splitOnChar '\n' (pyStrip (pySlice content 3 e)))
  else none

/-- extract_content_from_markdown (incremental_sync.py:269-292), applied
to the file content: when a frontmatter block is present, return the
text after the closing delimiter, stripped; otherwise the whole content. -/
def extract_content_from_markdown (content : Str) : Str :=
  if dashes.isPrefixOf content then
    match findSubAux (content.drop 3) dashes 3 with
    | none => content
    | some e => pyStrip (content.drop (e + 3))
  else content

/-- One parsed database-query response: whether the HTTP status was 200,
the rows of its "results" key, and its "has_more" flag.  The opaque
next_cursor is not modelled: issuing the follow-up request with it is
represented by consuming the next response of the scripted list. -/
structure PageResp where
  ok : Bool
  results : List Page
  has_more : Bool
deriving DecidableEq

/-- The pagination while-loop of fetch_recently_modified_pages
(incremental_sync.py:95-112): as long as the previous response reports
has_more, request the next page; a non-200 response breaks the loop,
otherwise its results are appended. -/
def paginationLoop : Bool → List PageResp → List Page
  | false, _ => []
  | true, [] => []
  | true, r :: rest => if r.ok then r.results ++ paginationLoop r.has_more rest else []

/-- fetch_recently_modified_pages (incremental_sync.py:52-114): a non-200
initial response yields []; otherwise the initial results followed by
the pagination loop. -/
def fetch_recently_modified_pages (first : PageResp) (rest : List PageResp) : List Page :=
  if first.ok then first.results ++ paginationLoop first.has_more rest else []

/-- The pagination while-loop of fetch_all_pages_from_database
(sync_utils.py:26-36), which performs no status check: a non-200
response is modelled by a PageResp whose parsed error body has no
results (results = []) and no has_more (has_more = false). -/
def allPagesLoop : Bool → List PageResp → List Page
  | false, _ => []
  | true, [] => []
  | true, r :: rest => r.results ++ allPagesLoop r.has_more rest

/-- fetch_all_pages_from_database (sync_utils.py:8-37): initial request
through readDatabase (no status check, results defaulted to []), then
the pagination loop. -/
def fetch_all_pages_from_database (first : PageResp) (rest : List PageResp) : List Page :=
  first.results ++ allPagesLoop first.has_more rest

/-- A scripted source is well paged when each response that reports
has_more is followed by exactly one more response, and the last one
reports no more. -/
def chainOk : Bool → List PageResp → Bool
  | false, rest => rest.isEmpty
  | true, [] => false
  | true, r :: rest => chainOk r.has_more rest

/-- State threaded through the incremental_pull page loop
(incremental_sync.py:150-186): the filesystem, the ledger (the Python
existing_files dict aliases metadata["files"], so ledger writes of
earlier iterations are visible to later membership tests), and the
updated/new result lists. -/
structure PullState where
  fs : FS
  meta : Metadata
  updated : List Str
  new : List Str

/-- One iteration of the incremental_pull page loop
(incremental_sync.py:154-185): test ledger membership first, fetch the
block content (none models a failed fetch, which skips the page), write
the rendered file, hash the content just written (the code re-reads the
file it wrote), record it through update_sync_metadata, and classify the
path as new or updated by the membership test made before the write. -/
def pullStep (hashFn : Str → Str) (fetchB : Str → Option BlocksResp) (now output_dir : Str)
    (s : PullState) (page : Page) : PullState :=
  let is_new := (lookupId s.meta.files page.id).isNone
  match fetchB page.id with
  | none => s
  | some blocks =>
    let pc := save_page_to_file page blocks output_dir
    let fs' : FS := fun q => if q = pc.1 then some pc.2 else s.fs q
    let content_hash := hashFn pc.2
    let meta' := update_sync_metadata s.meta page.id pc.1 content_hash page.last_edited_time now
    { fs := fs', meta := meta',
      updated := s.updated ++ (if is_new then [] else [pc.1]),
      new := s.new ++ (if is_new then [pc.1] else []) }

/-- The incremental_pull page loop, iterated over the fetched pages. -/
def pullLoop (hashFn : Str → Str) (fetchB : Str → Option BlocksResp) (now output_dir : Str) :
    PullState → List Page → PullState
  | s, [] => s
  | s, page :: rest =>
    pullLoop hashFn fetchB now output_dir (pullStep hashFn fetchB now output_dir s page) rest

/-- incremental_pull (incremental_sync.py:116-188) given the already
fetched list of modified pages (the query and its pagination complete
before this loop runs; see fetch_recently_modified_pages): stamp
last_sync via create_sync_metadata, then process each page.  The
returned PullState carries (updated_files, new_files) plus the final
filesystem and ledger. -/
def incremental_pull (hashFn : Str → Str) (fetchB : Str → Option BlocksResp)
    (now output_dir : Str) (pages : List Page) (fs0 : FS) (meta0 : Metadata) : PullState :=
  pullLoop hashFn fetchB now output_dir ⟨fs0, create_sync_metadata meta0 now, [], []⟩ pages

/-- The in-place mutation metadata["files"][nid]["content_hash"] = h;
metadata["files"][nid]["last_synced"] = now
(push_local_changes, incremental_sync.py:339-341). -/
def setHashSynced (files : List (Str × FileEntry)) (nid h now : Str) : List (Str × FileEntry) :=
  files.map fun kv =>
    if kv.1 = nid then (kv.1, { kv.2 with content_hash := h, last_synced := now }) else kv

/-- One iteration of the push_local_changes loop
(incremental_sync.py:309-347) over one candidate file, threading the
(pushed, ledger) pair; all candidates live in one directory so they
share one .notion_sync.json, which is modelled as present.  A missing
file makes open() raise and aborts the whole run (none).  A missing or
falsy notion_id skips the file.  remoteOk models the success of the
update_page_content HTTP request (autonote.py:87-167).  On success the
path is recorded, the full file content is re-read and hashed, and only
when the id is a ledger key are that entry's content_hash and
last_synced overwritten; on failure nothing changes. -/
def pushStep (hashFn : Str → Str) (remoteOk : Str → Str → Bool) (now : Str) (fs : FS)
    (st : List Str × Metadata) (filepath : Str) : Option (List Str × Metadata) :=
  match fs filepath with
  | none => none
  | some content =>
    match extract_notion_id_from_frontmatter content with
    | none => some st
    | some nid =>
      if nid = [] then some st
      else
        let body := extract_content_from_markdown content
        if remoteOk nid body then
          let content_hash := hashFn content
          let meta' :=
            if (lookupId st.2.files nid).isSome then
              { st.2 with files := setHashSynced st.2.files nid content_hash now }
            else st.2
          some (st.1 ++ [filepath], meta')
        else some st

/-- push_local_changes (incremental_sync.py:294-349): fold the per-file
step over the candidate files, starting from an empty pushed list. -/
def push_local_changes (hashFn : Str → Str) (remoteOk : Str → Str → Bool) (now : Str) (fs : FS)
    (files : List Str) (meta : Metadata) : Option (List Str × Metadata) :=
  files.foldlM (pushStep hashFn remoteOk now fs) ([], meta)

/-- The fields of a ledger entry that a pull run determines from the
page alone: local path, fingerprint, remote timestamp (everything except
the wall-clock last_synced stamp). -/
def entryProj (e : FileEntry) : Str × Str × Str :=
  (e.local_path, e.content_hash, e.last_edited_time)

/-- The content that the last page of the list writing to path q leaves
there (none when no processed page writes to q); used to characterize
the filesystem after a pull run. -/
def lastWriteTo (fetchB : Str → Option BlocksResp) (output_dir : Str) :
    List Page → Str → Option Str
  | [], _ => none
  | p :: rest, q =>
    match lastWriteTo fetchB output_dir rest q with
    | some c => some c
    | none =>
      match fetchB p.id with
      | none => none
      | some b =>
        if q = (save_page_to_file p b output_dir).1 then
          some (save_page_to_file p b output_dir).2
        else none

/-- The path/fingerprint/timestamp that the last page of the list with
id pid records in the ledger (none when no processed page has that id);
used to characterize the ledger after a pull run. -/
def lastEntryFor (hashFn : Str → Str) (fetchB : Str → Option BlocksResp) (output_dir : Str) :
    List Page → Str → Option (Str × Str × Str)
  | [], _ => none
  | p :: rest, pid =>
    match lastEntryFor hashFn fetchB output_dir rest pid with
    | some e => some e
    | none =>
      match fetchB p.id with
      | none => none
      | some b =>
        if p.id = pid then
          some ((save_page_to_file p b output_dir).1,
            hashFn (save_page_to_file p b output_dir).2, p.last_edited_time)
        else none

/-- The header fields of a rendered file: everything strictly between
the opening delimiter line and the closing delimiter of the frontmatter
produced by generate_frontmatter, minus the leading newline. -/
def fieldsOf (props : List (Str × PropVal)) (page_id last_edited_time : Str) : Str :=
  str "notion_id: " ++ page_id ++ str "\n" ++
    (str "last_edited_time: " ++ last_edited_time ++ str "\n") ++ propLines props

/-! ### Ledger map lemmas -/

theorem lookupId_upsert (files : List (Str × FileEntry)) (k pid : Str) (e : FileEntry) :
    lookupId (upsert files k e) pid = if k = pid then some e else lookupId files pid := by
  induction files with
  | nil => simp [upsert, lookupId]
  | cons kv rest ih =>
    obtain ⟨k', v⟩ := kv
    simp only [upsert]
    by_cases h : k' = k
    · subst h
      rw [if_pos rfl]
      by_cases h2 : k' = pid
      · simp [lookupId, h2]
      · simp [lookupId, h2]
    · rw [if_neg h]
      by_cases h2 : k' = pid
      · subst h2
        have hk : ¬k = k' := fun hk => h hk.symm
        simp [lookupId, hk]
      · simp [lookupId, h2, ih]

theorem lookupId_setHashSynced_self (files : List (Str × FileEntry)) (nid h now : Str) :
    lookupId (setHashSynced files nid h now) nid =
      (lookupId files nid).map (fun e => { e with content_hash := h, last_synced := now }) := by
  induction files with
  | nil => simp [setHashSynced, lookupId]
  | cons kv rest ih =>
    obtain ⟨k, v⟩ := kv
    simp only [setHashSynced, List.map_cons]
    by_cases hk : k = nid
    · rw [if_pos hk]
      simp [lookupId, hk]
    · rw [if_neg hk]
      simp only [lookupId, hk, if_false]
      simpa [setHashSynced] using ih

theorem lookupId_setHashSynced_ne (files : List (Str × FileEntry)) (nid h now pid : Str)
    (hne : pid ≠ nid) :
    lookupId (setHashSynced files nid h now) pid = lookupId files pid := by
  induction files with
  | nil => simp [setHashSynced, lookupId]
  | cons kv rest ih =>
    obtain ⟨k, v⟩ := kv
    simp only [setHashSynced, List.map_cons]
    by_cases hk : k = nid
    · rw [if_pos hk]
      have hkp : ¬k = pid := fun hkp => hne (hkp ▸ hk)
      simp only [lookupId, hkp, if_false]
      simpa [setHashSynced] using ih
    · rw [if_neg hk]
      by_cases h2 : k = pid
      · simp [lookupId, h2]
      · simp only [lookupId, h2, if_false]
        simpa [setHashSynced] using ih

/-! ### Claim C10 -/

/-- Claim C10: update_sync_metadata for a given remote id is
frame-preserving on the rest of the ledger: any other id's entry and the
ledger's last_sync field are unchanged by the call. -/
theorem c10_update_sync_metadata_frame (meta : Metadata)
    (page_id filepath content_hash last_edited_time now other : Str) (h : other ≠ page_id) :
    lookupId (update_sync_metadata meta page_id filepath content_hash last_edited_time now).files
        other = lookupId meta.files other ∧
      (update_sync_metadata meta page_id filepath content_hash last_edited_time now).last_sync =
        meta.last_sync := by
  constructor
  · simp only [update_sync_metadata, lookupId_upsert]
    rw [if_neg (fun hk => h hk.symm)]
  · rfl

/-- Witness for C10 at a concrete ledger with two entries. -/
theorem c10_update_sync_metadata_frame_witness :
    str "b" ≠ str "a" ∧
      (lookupId (update_sync_metadata
            ⟨str "T", [(str "a", ⟨str "pa", str "ha", str "ta", str "sa"⟩),
              (str "b", ⟨str "pb", str "hb", str "tb", str "sb"⟩)]⟩
            (str "a") (str "pa2") (str "ha2") (str "ta2") (str "sa2")).files (str "b") =
          lookupId [(str "a", ⟨str "pa", str "ha", str "ta", str "sa"⟩),
            (str "b", ⟨str "pb", str "hb", str "tb", str "sb"⟩)] (str "b") ∧
        (update_sync_metadata
            ⟨str "T", [(str "a", ⟨str "pa", str "ha", str "ta", str "sa"⟩),
              (str "b", ⟨str "pb", str "hb", str "tb", str "sb"⟩)]⟩
            (str "a") (str "pa2") (str "ha2") (str "ta2") (str "sa2")).last_sync = str "T") :=
  ⟨by decide, c10_update_sync_metadata_frame _ _ _ _ _ _ _ (by decide)⟩

/-! ### Claim C1 -/

/-- Claim C1: check_local_changes reports exactly the ledger-tracked
files whose current content hash differs from the stored fingerprint: a
path is reported iff some ledger entry carries it (with a non-falsy path
and fingerprint, which every entry the program writes has), the file
exists, and the recomputed hash of its current content differs from the
stored fingerprint.  Mutating a tracked file to content hashing
differently makes its path satisfy the right side; reverting it to
content hashing to the stored fingerprint falsifies it. -/
theorem c1_check_local_changes_exact (hashFn : Str → Str) (fs : FS)
    (files : List (Str × FileEntry)) (p : Str) :
    p ∈ check_local_changes hashFn fs files ↔
      ∃ pid fd, (pid, fd) ∈ files ∧ fd.local_path = p ∧ fd.local_path ≠ [] ∧
        fd.content_hash ≠ [] ∧
        ∃ content, fs fd.local_path = some content ∧ hashFn content ≠ fd.content_hash := by
  unfold check_local_changes
  rw [List.mem_filterMap]
  constructor
  · rintro ⟨⟨pid, fd⟩, hmem, hf⟩
    dsimp only at hf
    by_cases h1 : fd.local_path = [] ∨ fd.content_hash = []
    · rw [if_pos h1] at hf
      exact Option.noConfusion hf
    · rw [if_neg h1] at hf
      rcases hfs : fs fd.local_path with _ | content
      · rw [hfs] at hf
        exact Option.noConfusion hf
      · rw [hfs] at hf
        dsimp only at hf
        by_cases h2 : hashFn content ≠ fd.content_hash
        · rw [if_pos h2] at hf
          exact ⟨pid, fd, hmem, Option.some.inj hf, fun hn => h1 (Or.inl hn),
            fun hn => h1 (Or.inr hn), content, hfs, h2⟩
        · rw [if_neg h2] at hf
          exact Option.noConfusion hf
  · rintro ⟨pid, fd, hmem, hpath, h1a, h1b, content, hfs, hne⟩
    refine ⟨(pid, fd), hmem, ?_⟩
    have h1 : ¬(fd.local_path = [] ∨ fd.content_hash = []) := by
      rintro (h | h)
      · exact h1a h
      · exact h1b h
    dsimp only
    rw [if_neg h1, hfs]
    dsimp only
    rw [if_pos hne, hpath]

/-! ### Claim C3 -/

theorem paginationLoop_complete (rest : List PageResp) :
    ∀ b, chainOk b rest = true → (∀ r ∈ rest, r.ok = true) →
      paginationLoop b rest = (rest.map PageResp.results).flatten := by
  induction rest with
  | nil =>
    intro b hchain _
    cases b
    · simp [paginationLoop]
    · exact absurd hchain (by simp [chainOk])
  | cons r rest ih =>
    intro b hchain hok
    cases b
    · exact absurd hchain (by simp [chainOk])
    · have hr : r.ok = true := hok r (by simp)
      simp only [paginationLoop, hr, if_true]
      rw [ih r.has_more (by simpa [chainOk] using hchain) (fun x hx => hok x (by simp [hx]))]
      simp

theorem allPagesLoop_complete (rest : List PageResp) :
    ∀ b, chainOk b rest = true →
      allPagesLoop b rest = (rest.map PageResp.results).flatten := by
  induction rest with
  | nil =>
    intro b hchain
    cases b
    · simp [allPagesLoop]
    · exact absurd hchain (by simp [chainOk])
  | cons r rest ih =>
    intro b hchain
    cases b
    · exact absurd hchain (by simp [chainOk])
    · simp only [allPagesLoop]
      rw [ih r.has_more (by simpa [chainOk] using hchain)]
      simp

/-- Claim C3: the pull query is exhaustively paginated.  For every
scripted source whose responses are successful and form a has_more chain
(every response reporting has_more is followed by one more page, the
last reports no more), both query functions keep consuming continuation
pages until has_more is false, and the returned list is the
concatenation of the results of every page, in order - no item of any
page is dropped.  incremental_pull receives this fully accumulated list
before its write loop starts (see the definition of incremental_pull). -/
theorem c3_pagination_exhaustive (first : PageResp) (rest : List PageResp)
    (h1 : first.ok = true) (h2 : ∀ r ∈ rest, r.ok = true)
    (h3 : chainOk first.has_more rest = true) :
    fetch_recently_modified_pages first rest =
        first.results ++ (rest.map PageResp.results).flatten ∧
      fetch_all_pages_from_database first rest =
        first.results ++ (rest.map PageResp.results).flatten := by
  constructor
  · simp only [fetch_recently_modified_pages, h1, if_true]
    rw [paginationLoop_complete rest first.has_more h3 h2]
  · simp only [fetch_all_pages_from_database]
    rw [allPagesLoop_complete rest first.has_more h3]

/-- Witness for C3: a source reporting 3 pages of one item each; all
three items are aggregated. -/
theorem c3_pagination_exhaustive_witness :
    ((⟨true, [⟨str "1", str "t1", []⟩], true⟩ : PageResp).ok = true ∧
      (∀ r ∈ [(⟨true, [⟨str "2", str "t2", []⟩], true⟩ : PageResp),
          ⟨true, [⟨str "3", str "t3", []⟩], false⟩], r.ok = true) ∧
      chainOk (⟨true, [⟨str "1", str "t1", []⟩], true⟩ : PageResp).has_more
        [(⟨true, [⟨str "2", str "t2", []⟩], true⟩ : PageResp),
          ⟨true, [⟨str "3", str "t3", []⟩], false⟩] = true) ∧
    fetch_recently_modified_pages ⟨true, [⟨str "1", str "t1", []⟩], true⟩
        [⟨true, [⟨str "2", str "t2", []⟩], true⟩, ⟨true, [⟨str "3", str "t3", []⟩], false⟩] =
      (⟨true, [⟨str "1", str "t1", []⟩], true⟩ : PageResp).results ++
        (([(⟨true, [⟨str "2", str "t2", []⟩], true⟩ : PageResp),
          ⟨true, [⟨str "3", str "t3", []⟩], false⟩].map PageResp.results).flatten) :=
  ⟨⟨by decide, by decide, by decide⟩,
    (c3_pagination_exhaustive _ _ (by decide) (by decide) (by decide)).1⟩

/-! ### Claim C6 -/

/-- Claim C6: incremental_pull classifies each item processed with
fetched content as new or updated by ledger membership evaluated before
that item's ledger write: at the step processing the item, an id absent
from the ledger at that moment puts the written path on the new list,
a present id puts it on the updated list. -/
theorem c6_new_vs_updated (hashFn : Str → Str) (fetchB : Str → Option BlocksResp)
    (now output_dir : Str) (s : PullState) (page : Page) (blocks : BlocksResp)
    (hfetch : fetchB page.id = some blocks) :
    (lookupId s.meta.files page.id = none →
      (pullStep hashFn fetchB now output_dir s page).new =
          s.new ++ [(save_page_to_file page blocks output_dir).1] ∧
        (pullStep hashFn fetchB now output_dir s page).updated = s.updated) ∧
    (∀ e, lookupId s.meta.files page.id = some e →
      (pullStep hashFn fetchB now output_dir s page).updated =
          s.updated ++ [(save_page_to_file page blocks output_dir).1] ∧
        (pullStep hashFn fetchB now output_dir s page).new = s.new) := by
  constructor
  · intro h
    simp [pullStep, hfetch, h]
  · intro e h
    simp [pullStep, hfetch, h]

/-- Witness for C6: a page with id "1", unknown to an empty ledger, is
classified as new. -/
theorem c6_new_vs_updated_witness :
    (pullStep (fun l => l) (fun _ => some ⟨[]⟩) (str "N") (str "out")
          ⟨fun _ => none, ⟨[], []⟩, [], []⟩ ⟨str "1", str "t", []⟩).new =
        [] ++ [(save_page_to_file ⟨str "1", str "t", []⟩ ⟨[]⟩ (str "out")).1] ∧
      (pullStep (fun l => l) (fun _ => some ⟨[]⟩) (str "N") (str "out")
          ⟨fun _ => none, ⟨[], []⟩, [], []⟩ ⟨str "1", str "t", []⟩).updated = [] :=
  (c6_new_vs_updated (fun l => l) (fun _ => some ⟨[]⟩) (str "N") (str "out")
    ⟨fun _ => none, ⟨[], []⟩, [], []⟩ ⟨str "1", str "t", []⟩ ⟨[]⟩ rfl).1 rfl

/-! ### Claim C7 -/

/-- Claim C7 (amended): the local filename is derived from the item's
title by replacing every character that is not alphanumeric, a space, a
hyphen, or an underscore with an underscore; consequently the two
titles "A/B" and "A_B" (not "A B", which keeps its space and yields a
different name) sanitize to the same filename, and pulling both items
writes different contents to the same path, the second overwriting the
first. -/
theorem c7_filename_sanitize_and_collision :
    (∀ (page : Page) (content : BlocksResp) (output_dir : Str),
        (save_page_to_file page content output_dir).1 =
          output_dir ++ str "/" ++
            ((titleOf page.properties).map
                (fun c => if c.isAlphanum || c = ' ' || c = '-' || c = '_' then c else '_') ++
              str ".md")) ∧
    (str "A/B").map sanitizeChar = (str "A_B").map sanitizeChar ∧
    (save_page_to_file ⟨str "1", str "t", [(str "Name", PropVal.title [str "A/B"])]⟩ ⟨[]⟩
          (str "out")).1 =
      (save_page_to_file ⟨str "2", str "t", [(str "Name", PropVal.title [str "A_B"])]⟩ ⟨[]⟩
          (str "out")).1 ∧
    (save_page_to_file ⟨str "1", str "t", [(str "Name", PropVal.title [str "A/B"])]⟩ ⟨[]⟩
          (str "out")).2 ≠
      (save_page_to_file ⟨str "2", str "t", [(str "Name", PropVal.title [str "A_B"])]⟩ ⟨[]⟩
          (str "out")).2 ∧
    (incremental_pull (fun l => l) (fun _ => some ⟨[]⟩) (str "N") (str "out")
          [⟨str "1", str "t", [(str "Name", PropVal.title [str "A/B"])]⟩,
            ⟨str "2", str "t", [(str "Name", PropVal.title [str "A_B"])]⟩]
          (fun _ => none) ⟨[], []⟩).fs
        ((save_page_to_file ⟨str "1", str "t", [(str "Name", PropVal.title [str "A/B"])]⟩ ⟨[]⟩
          (str "out")).1) =
      some ((save_page_to_file ⟨str "2", str "t", [(str "Name", PropVal.title [str "A_B"])]⟩ ⟨[]⟩
          (str "out")).2) :=
  ⟨fun _ _ _ => rfl, by decide, by decide, by decide, by decide⟩

/-- Counterexample for C7 as stated: the titles "A/B" and "A B" do NOT
sanitize to the same filename, because the sanitizer keeps spaces. -/
theorem c7_counterexample :
    (save_page_to_file ⟨str "1", str "t", [(str "Name", PropVal.title [str "A/B"])]⟩ ⟨[]⟩
          (str "out")).1 ≠
      (save_page_to_file ⟨str "2", str "t", [(str "Name", PropVal.title [str "A B"])]⟩ ⟨[]⟩
          (str "out")).1 := by
  decide

/-! ### Pull-loop lemmas for C4 and C8 -/

theorem pullLoop_lookup_skip (hashFn : Str → Str) (fetchB : Str → Option BlocksResp)
    (now output_dir : Str) (pid : Str) :
    ∀ (pages : List Page) (s : PullState),
      (∀ q ∈ pages, q.id = pid → fetchB q.id = none) →
      lookupId (pullLoop hashFn fetchB now output_dir s pages).meta.files pid =
        lookupId s.meta.files pid := by
  intro pages
  induction pages with
  | nil => intro s _; rfl
  | cons p rest ih =>
    intro s hskip
    simp only [pullLoop]
    rw [ih _ (fun q hq => hskip q (by simp [hq]))]
    rcases hf : fetchB p.id with _ | b
    · simp [pullStep, hf]
    · by_cases hip : p.id = pid
      · have := hskip p (by simp) hip
        rw [hf] at this
        exact Option.noConfusion this
      · simp [pullStep, hf, update_sync_metadata, lookupId_upsert, hip]

theorem pullLoop_fs_or (hashFn : Str → Str) (fetchB : Str → Option BlocksResp)
    (now output_dir : Str) (q : Str) :
    ∀ (pages : List Page) (s : PullState),
      (pullLoop hashFn fetchB now output_dir s pages).fs q =
        (lastWriteTo fetchB output_dir pages q).or (s.fs q) := by
  intro pages
  induction pages with
  | nil => intro s; rfl
  | cons p rest ih =>
    intro s
    simp only [pullLoop, lastWriteTo]
    rw [ih]
    rcases hlw : lastWriteTo fetchB output_dir rest q with _ | c
    · rcases hf : fetchB p.id with _ | b
      · simp [pullStep, hf, Option.or]
      · simp only [pullStep, hf]
        by_cases hq : q = (save_page_to_file p b output_dir).1
        · simp [hq, Option.or]
        · simp [hq, Option.or]
    · simp [Option.or]

theorem pullLoop_new_keeps (hashFn : Str → Str) (fetchB : Str → Option BlocksResp)
    (now output_dir : Str) (x : Str) :
    ∀ (pages : List Page) (s : PullState), x ∈ s.new →
      x ∈ (pullLoop hashFn fetchB now output_dir s pages).new := by
  intro pages
  induction pages with
  | nil => intro s h; exact h
  | cons p rest ih =>
    intro s h
    simp only [pullLoop]
    apply ih
    rcases hf : fetchB p.id with _ | b
    · simpa [pullStep, hf] using h
    · simp [pullStep, hf, List.mem_append, h]

theorem pullLoop_updated_keeps (hashFn : Str → Str) (fetchB : Str → Option BlocksResp)
    (now output_dir : Str) (x : Str) :
    ∀ (pages : List Page) (s : PullState), x ∈ s.updated →
      x ∈ (pullLoop hashFn fetchB now output_dir s pages).updated := by
  intro pages
  induction pages with
  | nil => intro s h; exact h
  | cons p rest ih =>
    intro s h
    simp only [pullLoop]
    apply ih
    rcases hf : fetchB p.id with _ | b
    · simpa [pullStep, hf] using h
    · simp [pullStep, hf, List.mem_append, h]

theorem pullLoop_processed (hashFn : Str → Str) (fetchB : Str → Option BlocksResp)
    (now output_dir : Str) (p : Page) (b : BlocksResp) (hf : fetchB p.id = some b) :
    ∀ (pages : List Page) (s : PullState), (pages.map Page.id).Nodup → p ∈ pages →
      lookupId (pullLoop hashFn fetchB now output_dir s pages).meta.files p.id =
          some ⟨(save_page_to_file p b output_dir).1,
            hashFn (save_page_to_file p b output_dir).2, p.last_edited_time, now⟩ ∧
        ((pullLoop hashFn fetchB now output_dir s pages).fs
            ((save_page_to_file p b output_dir).1)).isSome = true ∧
        ((save_page_to_file p b output_dir).1 ∈
            (pullLoop hashFn fetchB now output_dir s pages).new ∨
          (save_page_to_file p b output_dir).1 ∈
            (pullLoop hashFn fetchB now output_dir s pages).updated) := by
  intro pages
  induction pages with
  | nil => intro s _ hmem; exact absurd hmem (List.not_mem_nil p)
  | cons q rest ih =>
    intro s hnodup hmem
    have hnd : (∀ x ∈ rest, ¬x.id = q.id) ∧ (rest.map Page.id).Nodup := by simpa using hnodup
    rcases List.mem_cons.mp hmem with heq | hmem'
    · subst heq
      simp only [pullLoop]
      have hskip : ∀ r ∈ rest, r.id = p.id → fetchB r.id = none := fun r hr hrid =>
        absurd hrid (hnd.1 r hr)
      refine ⟨?_, ?_, ?_⟩
      · rw [pullLoop_lookup_skip hashFn fetchB now output_dir p.id rest _ hskip]
        simp [pullStep, hf, update_sync_metadata, lookupId_upsert]
      · rw [pullLoop_fs_or]
        rcases hlw : lastWriteTo fetchB output_dir rest ((save_page_to_file p b output_dir).1)
          with _ | c
        · simp [Option.or, pullStep, hf]
        · simp [Option.or]
      · have hstep : (save_page_to_file p b output_dir).1 ∈
            (pullStep hashFn fetchB now output_dir s p).new ∨
            (save_page_to_file p b output_dir).1 ∈
              (pullStep hashFn fetchB now output_dir s p).updated := by
          cases hb : (lookupId s.meta.files p.id).isNone
          · right
            simp [pullStep, hf, hb, List.mem_append]
          · left
            simp [pullStep, hf, hb, List.mem_append]
        rcases hstep with h | h
        · exact Or.inl (pullLoop_new_keeps hashFn fetchB now output_dir _ rest _ h)
        · exact Or.inr (pullLoop_updated_keeps hashFn fetchB now output_dir _ rest _ h)
    · exact ih (pullStep hashFn fetchB now output_dir s q) (by simpa using hnd.2) hmem'

/-! ### Claim C4 -/

/-- Claim C4: incremental_pull tolerates per-item content-fetch failure.
With pairwise distinct page ids: every item whose block fetch succeeds
is converted, written (its path maps to a file in the final filesystem),
recorded in the ledger with its rendered path, the hash of its rendered
content and its remote timestamp, and classified into one of the result
lists; an item whose block fetch fails and that was not previously in
the ledger has no ledger entry afterwards.  Failures never abort the
processing of the other items. -/
theorem c4_partial_failure_isolation (hashFn : Str → Str) (fetchB : Str → Option BlocksResp)
    (now output_dir : Str) (pages : List Page) (fs0 : FS) (meta0 : Metadata)
    (hnodup : (pages.map Page.id).Nodup) (p : Page) (hmem : p ∈ pages) :
    (∀ b, fetchB p.id = some b →
      lookupId (incremental_pull hashFn fetchB now output_dir pages fs0 meta0).meta.files p.id =
          some ⟨(save_page_to_file p b output_dir).1,
            hashFn (save_page_to_file p b output_dir).2, p.last_edited_time, now⟩ ∧
        ((incremental_pull hashFn fetchB now output_dir pages fs0 meta0).fs
            ((save_page_to_file p b output_dir).1)).isSome = true ∧
        ((save_page_to_file p b output_dir).1 ∈
            (incremental_pull hashFn fetchB now output_dir pages fs0 meta0).new ∨
          (save_page_to_file p b output_dir).1 ∈
            (incremental_pull hashFn fetchB now output_dir pages fs0 meta0).updated)) ∧
    (fetchB p.id = none → lookupId meta0.files p.id = none →
      lookupId (incremental_pull hashFn fetchB now output_dir pages fs0 meta0).meta.files p.id =
        none) := by
  constructor
  · intro b hb
    exact pullLoop_processed hashFn fetchB now output_dir p b hb pages _ hnodup hmem
  · intro hfail h0
    have hskip : ∀ q ∈ pages, q.id = p.id → fetchB q.id = none := by
      intro q _ hqid
      rw [hqid]
      exact hfail
    rw [incremental_pull, pullLoop_lookup_skip hashFn fetchB now output_dir p.id pages _ hskip]
    exact h0

/-- Witness for C4: five pages; fetching content for item 2 fails while
the others succeed; item 3 is still written and recorded, item 2 is
absent from the ledger. -/
theorem c4_partial_failure_isolation_witness :
    ((([⟨str "1", str "t", []⟩, ⟨str "2", str "t", []⟩, ⟨str "3", str "t", []⟩,
        ⟨str "4", str "t", []⟩, ⟨str "5", str "t", []⟩] : List Page).map Page.id).Nodup ∧
      (⟨str "3", str "t", []⟩ : Page) ∈
        ([⟨str "1", str "t", []⟩, ⟨str "2", str "t", []⟩, ⟨str "3", str "t", []⟩,
          ⟨str "4", str "t", []⟩, ⟨str "5", str "t", []⟩] : List Page) ∧
      (⟨str "2", str "t", []⟩ : Page) ∈
        ([⟨str "1", str "t", []⟩, ⟨str "2", str "t", []⟩, ⟨str "3", str "t", []⟩,
          ⟨str "4", str "t", []⟩, ⟨str "5", str "t", []⟩] : List Page)) ∧
    lookupId (incremental_pull (fun l => l)
        (fun pid => if pid = str "2" then none else some ⟨[]⟩) (str "N") (str "out")
        [⟨str "1", str "t", []⟩, ⟨str "2", str "t", []⟩, ⟨str "3", str "t", []⟩,
          ⟨str "4", str "t", []⟩, ⟨str "5", str "t", []⟩]
        (fun _ => none) ⟨[], []⟩).meta.files (str "3") =
      some ⟨(save_page_to_file ⟨str "3", str "t", []⟩ ⟨[]⟩ (str "out")).1,
        (save_page_to_file ⟨str "3", str "t", []⟩ ⟨[]⟩ (str "out")).2,
        str "t", str "N"⟩ ∧
    lookupId (incremental_pull (fun l => l)
        (fun pid => if pid = str "2" then none else some ⟨[]⟩) (str "N") (str "out")
        [⟨str "1", str "t", []⟩, ⟨str "2", str "t", []⟩, ⟨str "3", str "t", []⟩,
          ⟨str "4", str "t", []⟩, ⟨str "5", str "t", []⟩]
        (fun _ => none) ⟨[], []⟩).meta.files (str "2") = none :=
  ⟨⟨by decide, by decide, by decide⟩,
    ((c4_partial_failure_isolation (fun l => l)
        (fun pid => if pid = str "2" then none else some ⟨[]⟩) (str "N") (str "out")
        [⟨str "1", str "t", []⟩, ⟨str "2", str "t", []⟩, ⟨str "3", str "t", []⟩,
          ⟨str "4", str "t", []⟩, ⟨str "5", str "t", []⟩]
        (fun _ => none) ⟨[], []⟩ (by decide) ⟨str "3", str "t", []⟩ (by decide)).1 ⟨[]⟩
      (by decide)).1,
    (c4_partial_failure_isolation (fun l => l)
        (fun pid => if pid = str "2" then none else some ⟨[]⟩) (str "N") (str "out")
        [⟨str "1", str "t", []⟩, ⟨str "2", str "t", []⟩, ⟨str "3", str "t", []⟩,
          ⟨str "4", str "t", []⟩, ⟨str "5", str "t", []⟩]
        (fun _ => none) ⟨[], []⟩ (by decide) ⟨str "2", str "t", []⟩ (by decide)).2
      (by decide) rfl⟩

/-! ### Claim C8 -/

theorem pullLoop_lookup_proj (hashFn : Str → Str) (fetchB : Str → Option BlocksResp)
    (now output_dir : Str) (pid : Str) :
    ∀ (pages : List Page) (s : PullState),
      (lookupId (pullLoop hashFn fetchB now output_dir s pages).meta.files pid).map entryProj =
        (lastEntryFor hashFn fetchB output_dir pages pid).or
          ((lookupId s.meta.files pid).map entryProj) := by
  intro pages
  induction pages with
  | nil => intro s; rfl
  | cons p rest ih =>
    intro s
    simp only [pullLoop, lastEntryFor]
    rw [ih]
    rcases hle : lastEntryFor hashFn fetchB output_dir rest pid with _ | e
    · rcases hf : fetchB p.id with _ | b
      · simp [pullStep, hf, Option.or]
      · simp only [pullStep, hf]
        by_cases hip : p.id = pid
        · simp [update_sync_metadata, lookupId_upsert, hip, entryProj, Option.or]
        · simp [update_sync_metadata, lookupId_upsert, hip, Option.or]
    · simp [Option.or]

/-- Claim C8: pull is idempotent when the remote is unchanged.  Running
incremental_pull a second time over the same page list and block
contents leaves every local file's content identical, and every ledger
entry keeps the same local path, fingerprint and remote timestamp (only
the wall-clock last-synced stamp moves). -/
theorem c8_pull_idempotent (hashFn : Str → Str) (fetchB : Str → Option BlocksResp)
    (now1 now2 output_dir : Str) (pages : List Page) (fs0 : FS) (meta0 : Metadata) :
    (∀ q, (incremental_pull hashFn fetchB now2 output_dir pages
          (incremental_pull hashFn fetchB now1 output_dir pages fs0 meta0).fs
          (incremental_pull hashFn fetchB now1 output_dir pages fs0 meta0).meta).fs q =
        (incremental_pull hashFn fetchB now1 output_dir pages fs0 meta0).fs q) ∧
    (∀ pid, (lookupId (incremental_pull hashFn fetchB now2 output_dir pages
            (incremental_pull hashFn fetchB now1 output_dir pages fs0 meta0).fs
            (incremental_pull hashFn fetchB now1 output_dir pages fs0 meta0).meta).meta.files
            pid).map entryProj =
        (lookupId (incremental_pull hashFn fetchB now1 output_dir pages fs0
            meta0).meta.files pid).map entryProj) := by
  constructor
  · intro q
    simp only [incremental_pull]
    rw [pullLoop_fs_or, pullLoop_fs_or]
    cases hlw : lastWriteTo fetchB output_dir pages q <;> simp [Option.or]
  · intro pid
    simp only [incremental_pull, create_sync_metadata]
    rw [pullLoop_lookup_proj, pullLoop_lookup_proj]
    cases hle : lastEntryFor hashFn fetchB output_dir pages pid <;> simp [Option.or]

/-! ### Claim C5 -/

/-- Claim C5 (amended): push updates the ledger atomically per file, and
the fingerprint recorded on success is the hash of the file's FULL
current content (frontmatter included), not of the extracted post-header
body.  For a candidate file whose content carries a ledger-known
notion_id: when the remote update succeeds, the pushed list gains the
path and that entry gets content_hash = hash(full content) and
last_synced = now while its other fields and every other entry and
last_sync are untouched; when the remote update fails, the state is
returned completely unchanged, so the next run re-detects and retries. -/
theorem c5_push_per_file_ledger (hashFn : Str → Str) (remoteOk : Str → Str → Bool) (now : Str)
    (fs : FS) (st : List Str × Metadata) (filepath content nid : Str) (e : FileEntry)
    (hfs : fs filepath = some content)
    (hid : extract_notion_id_from_frontmatter content = some nid)
    (hnz : nid ≠ [])
    (hentry : lookupId st.2.files nid = some e) :
    (remoteOk nid (extract_content_from_markdown content) = true →
      ∃ meta', pushStep hashFn remoteOk now fs st filepath = some (st.1 ++ [filepath], meta') ∧
        lookupId meta'.files nid =
          some { e with content_hash := hashFn content, last_synced := now } ∧
        meta'.last_sync = st.2.last_sync ∧
        ∀ k, k ≠ nid → lookupId meta'.files k = lookupId st.2.files k) ∧
    (remoteOk nid (extract_content_from_markdown content) = false →
      pushStep hashFn remoteOk now fs st filepath = some st) := by
  constructor
  · intro hok
    refine ⟨{ st.2 with files := setHashSynced st.2.files nid (hashFn content) now }, ?_, ?_,
      rfl, ?_⟩
    · simp [pushStep, hfs, hid, hnz, hok, hentry]
    · rw [lookupId_setHashSynced_self, hentry]
      rfl
    · intro k hk
      exact lookupId_setHashSynced_ne _ _ _ _ _ hk
  · intro hfail
    simp [pushStep, hfs, hid, hnz, hfail]

/-- Witness for C5 at a concrete file, ledger and succeeding remote. -/
theorem c5_push_per_file_ledger_witness :
    ((fun p => if p = str "f.md" then some (str "---\nnotion_id: ab\n---\n\nbody\n") else none)
        (str "f.md") = some (str "---\nnotion_id: ab\n---\n\nbody\n") ∧
      extract_notion_id_from_frontmatter (str "---\nnotion_id: ab\n---\n\nbody\n") =
        some (str "ab") ∧
      lookupId [(str "ab", ⟨str "f.md", str "h0", str "t0", str "s0"⟩)] (str "ab") =
        some ⟨str "f.md", str "h0", str "t0", str "s0"⟩) ∧
    (∃ meta', pushStep (fun l => l) (fun _ _ => true) (str "NOW")
          (fun p => if p = str "f.md" then some (str "---\nnotion_id: ab\n---\n\nbody\n")
            else none)
          ([], ⟨str "T", [(str "ab", ⟨str "f.md", str "h0", str "t0", str "s0"⟩)]⟩)
          (str "f.md") =
        some ([] ++ [str "f.md"], meta') ∧
      lookupId meta'.files (str "ab") =
        some ⟨str "f.md", (fun l => l) (str "---\nnotion_id: ab\n---\n\nbody\n"), str "t0",
          str "NOW"⟩ ∧
      meta'.last_sync = str "T" ∧
      ∀ k, k ≠ str "ab" → lookupId meta'.files k =
        lookupId [(str "ab", ⟨str "f.md", str "h0", str "t0", str "s0"⟩)] k) :=
  ⟨⟨by decide, by decide, by decide⟩,
    (c5_push_per_file_ledger (fun l => l) (fun _ _ => true) (str "NOW")
      (fun p => if p = str "f.md" then some (str "---\nnotion_id: ab\n---\n\nbody\n") else none)
      ([], ⟨str "T", [(str "ab", ⟨str "f.md", str "h0", str "t0", str "s0"⟩)]⟩)
      (str "f.md") (str "---\nnotion_id: ab\n---\n\nbody\n") (str "ab")
      ⟨str "f.md", str "h0", str "t0", str "s0"⟩
      (by decide) (by decide) (by decide) (by decide)).1 rfl⟩

/-- Counterexample for C5 as stated: with the identity digest, the
fingerprint recorded after a successful push is the full file content,
which differs from the hash (identity) of the extracted body - so the
fingerprint is NOT hash(current body). -/
theorem c5_counterexample :
    pushStep (fun l => l) (fun _ _ => true) (str "NOW")
        (fun p => if p = str "f.md" then some (str "---\nnotion_id: ab\n---\n\nbody\n") else none)
        ([], ⟨str "T", [(str "ab", ⟨str "f.md", str "h0", str "t0", str "s0"⟩)]⟩)
        (str "f.md") =
      some ([str "f.md"],
        ⟨str "T", [(str "ab", ⟨str "f.md", str "---\nnotion_id: ab\n---\n\nbody\n", str "t0",
          str "NOW"⟩)]⟩) ∧
    (str "---\nnotion_id: ab\n---\n\nbody\n" : Str) ≠
      extract_content_from_markdown (str "---\nnotion_id: ab\n---\n\nbody\n") :=
  ⟨by decide, by decide⟩

/-! ### String-search lemmas for the frontmatter parser (C2 and C9) -/

theorem dashes_isPrefixOf_head_ne {c : Char} (h : ¬c = '-') (l : Str) :
    dashes.isPrefixOf (c :: l) = false := by
  have hb : ('-' == c) = false := beq_eq_false_iff_ne.mpr (fun he => h he.symm)
  simp [dashes, List.isPrefixOf, hb]

theorem dashes_isPrefixOf_short {u : Str} (hu : u.length ≤ 2) (B : Str) :
    dashes.isPrefixOf (u ++ '\n' :: B) = false := by
  rcases u with _ | ⟨a, _ | ⟨b, _ | ⟨c, t⟩⟩⟩
  · simp [dashes, List.isPrefixOf]
  · simp [dashes, List.isPrefixOf]
  · simp [dashes, List.isPrefixOf]
  · simp only [List.length_cons] at hu
    omega

theorem isPrefixOf_append_left_of_le {sub X : Str} (Y : Str)
    (h : sub.isPrefixOf (X ++ Y) = true) (hlen : sub.length ≤ X.length) :
    sub.isPrefixOf X = true := by
  induction sub generalizing X with
  | nil => cases X <;> rfl
  | cons s ss ih =>
    cases X with
    | nil => simp at hlen
    | cons x xs =>
      simp only [List.cons_append] at h
      have h' : ((s == x) && ss.isPrefixOf (xs ++ Y)) = true := h
      rw [Bool.and_eq_true] at h'
      have hl : ss.length ≤ xs.length := by simpa using hlen
      show ((s == x) && ss.isPrefixOf xs) = true
      rw [h'.1, ih h'.2 hl]
      rfl

theorem findSubAux_cons_pos {sub : Str} {c : Char} {cs : Str}
    (hp : sub.isPrefixOf (c :: cs) = true) (i : Nat) :
    findSubAux (c :: cs) sub i = some i := by
  simp [findSubAux, hp]

theorem findSubAux_cons_neg {sub : Str} {c : Char} {cs : Str}
    (hp : sub.isPrefixOf (c :: cs) = false) (i : Nat) :
    findSubAux (c :: cs) sub i = findSubAux cs sub (i + 1) := by
  simp [findSubAux, hp]

theorem findSubAux_eq_none_forall {l sub : Str} (hsub : sub ≠ []) :
    ∀ {i : Nat}, findSubAux l sub i = none → ∀ d, sub.isPrefixOf (l.drop d) = false := by
  induction l with
  | nil =>
    intro i _ d
    rw [List.drop_nil]
    cases sub with
    | nil => exact absurd rfl hsub
    | cons s ss => rfl
  | cons c cs ih =>
    intro i h d
    have hp : sub.isPrefixOf (c :: cs) = false := by
      by_cases hp : sub.isPrefixOf (c :: cs) = true
      · rw [findSubAux_cons_pos hp] at h
        exact Option.noConfusion h
      · exact Bool.eq_false_iff.mpr hp
    rw [findSubAux_cons_neg hp] at h
    cases d with
    | zero =>
      rw [List.drop_zero]
      exact hp
    | succ d =>
      rw [List.drop_succ_cons]
      exact ih h d

theorem findSubAux_isSome_of_prefix {l sub : Str} :
    ∀ {d i : Nat}, sub.isPrefixOf (l.drop d) = true → (findSubAux l sub i).isSome = true := by
  induction l with
  | nil =>
    intro d i h
    rw [List.drop_nil] at h
    cases sub with
    | nil => simp [findSubAux]
    | cons s ss => exact Bool.noConfusion h
  | cons c cs ih =>
    intro d i h
    by_cases hp : sub.isPrefixOf (c :: cs) = true
    · rw [findSubAux_cons_pos hp]
      rfl
    · have hp' : sub.isPrefixOf (c :: cs) = false := Bool.eq_false_iff.mpr hp
      rw [findSubAux_cons_neg hp']
      cases d with
      | zero =>
        rw [List.drop_zero] at h
        exact absurd h hp
      | succ d =>
        rw [List.drop_succ_cons] at h
        exact ih h

theorem findSubAux_eq_some_decompose {l sub : Str} :
    ∀ {i e : Nat}, findSubAux l sub i = some e →
      ∃ d, e = i + d ∧ sub.isPrefixOf (l.drop d) = true := by
  induction l with
  | nil =>
    intro i e h
    simp only [findSubAux] at h
    by_cases hs : sub.isEmpty
    · rw [if_pos hs] at h
      have hie : i = e := Option.some.inj h
      refine ⟨0, by omega, ?_⟩
      rw [List.drop_zero]
      cases sub with
      | nil => rfl
      | cons s ss => exact absurd hs (by simp)
    · rw [if_neg hs] at h
      exact Option.noConfusion h
  | cons c cs ih =>
    intro i e h
    by_cases hp : sub.isPrefixOf (c :: cs) = true
    · rw [findSubAux_cons_pos hp] at h
      have hie : i = e := Option.some.inj h
      refine ⟨0, by omega, ?_⟩
      rw [List.drop_zero]
      exact hp
    · have hp' : sub.isPrefixOf (c :: cs) = false := Bool.eq_false_iff.mpr hp
      rw [findSubAux_cons_neg hp'] at h
      obtain ⟨d, hd, hpref⟩ := ih h
      refine ⟨d + 1, by omega, ?_⟩
      rw [List.drop_succ_cons]
      exact hpref

theorem findSubAux_append (A B sub : Str) (i : Nat)
    (h : ∀ j, j < A.length → sub.isPrefixOf ((A ++ B).drop j) = false) :
    findSubAux (A ++ B) sub i = findSubAux B sub (i + A.length) := by
  induction A generalizing i with
  | nil => simp
  | cons a A ih =>
    have h0 : sub.isPrefixOf (a :: (A ++ B)) = false := h 0 (by simp)
    rw [List.cons_append, findSubAux_cons_neg h0]
    rw [ih (i + 1) (fun j hj => by
      have := h (j + 1) (by simpa using Nat.succ_lt_succ hj)
      rwa [List.cons_append, List.drop_succ_cons] at this)]
    congr 1
    simp only [List.length_cons]
    omega

theorem splitOnChar_ne_nil (sep : Char) (l : Str) : splitOnChar sep l ≠ [] := by
  induction l with
  | nil => simp [splitOnChar]
  | cons c cs ih =>
    simp only [splitOnChar]
    rcases h : splitOnChar sep cs with _ | ⟨h1, t⟩
    · exact absurd h ih
    · by_cases hc : c = sep <;> simp [hc]

theorem splitOnChar_append (sep : Char) (X Y : Str) (hX : sep ∉ X) :
    splitOnChar sep (X ++ sep :: Y) = X :: splitOnChar sep Y := by
  induction X with
  | nil =>
    simp only [List.nil_append, splitOnChar]
    rcases h : splitOnChar sep Y with _ | ⟨h1, t⟩
    · exact absurd h (splitOnChar_ne_nil sep Y)
    · simp
  | cons x X ih =>
    have hx : ¬x = sep := fun he => hX (by simp [he])
    have hX' : sep ∉ X := fun he => hX (by simp [he])
    simp only [List.cons_append, splitOnChar, List.append_eq]
    rw [ih hX']
    simp [hx]

theorem splitFirst_append (sep : Char) (X Y : Str) (hX : sep ∉ X) :
    splitFirst sep (X ++ sep :: Y) = (X, some Y) := by
  induction X with
  | nil => simp [splitFirst]
  | cons x X ih =>
    have hx : ¬x = sep := fun he => hX (by simp [he])
    have hX' : sep ∉ X := fun he => hX (by simp [he])
    simp only [List.cons_append, splitFirst, hx, if_false, List.append_eq]
    rw [ih hX']

theorem dropWhile_append_cons_neg (p : Char → Bool) {c : Char} (hc : p c = false) (U V : Str) :
    (U ++ c :: V).dropWhile p = U.dropWhile p ++ c :: V := by
  have hc' : ¬p c = true := by simp [hc]
  induction U with
  | nil => simp [List.dropWhile_cons_of_neg hc']
  | cons u U ih =>
    by_cases hu : p u = true
    · simp [List.dropWhile_cons_of_pos hu, ih]
    · simp [List.dropWhile_cons_of_neg hu]

theorem pyStrip_sandwich {x y z : Char} (hx : isPySpace x = true) (hy : isPySpace y = false)
    (hz : isPySpace z = false) (M T : Str) :
    pyStrip (x :: (y :: M ++ z :: T)) =
      y :: M ++ z :: (T.reverse.dropWhile isPySpace).reverse := by
  have hy' : ¬isPySpace y = true := by simp [hy]
  unfold pyStrip
  simp only [List.cons_append]
  rw [List.dropWhile_cons_of_pos hx, List.dropWhile_cons_of_neg hy']
  have h1 : (y :: (M ++ z :: T)).reverse = T.reverse ++ z :: (M.reverse ++ [y]) := by
    simp [List.reverse_cons, List.reverse_append, List.append_assoc]
  rw [h1, dropWhile_append_cons_neg isPySpace hz]
  simp [List.reverse_append, List.append_assoc]

/-! ### Every frontmatter field line ends with a newline -/

theorem propLine_newline (kv : Str × PropVal) :
    propLine kv = [] ∨ ∃ Y, propLine kv = Y ++ ['\n'] := by
  obtain ⟨name, v⟩ := kv
  cases v with
  | title ts =>
    cases ts with
    | nil => exact Or.inl rfl
    | cons t _ =>
      refine Or.inr ⟨str "title: \"" ++ t ++ ['"'], ?_⟩
      show str "title: \"" ++ t ++ str "\"\n" = _
      rw [show (str "\"\n" : Str) = ['"'] ++ ['\n'] from rfl]
      simp [List.append_assoc]
  | rich_text ts =>
    cases ts with
    | nil => exact Or.inl rfl
    | cons t _ =>
      refine Or.inr ⟨pyLower name ++ str ": \"" ++ t ++ ['"'], ?_⟩
      show pyLower name ++ str ": \"" ++ t ++ str "\"\n" = _
      rw [show (str "\"\n" : Str) = ['"'] ++ ['\n'] from rfl]
      simp [List.append_assoc]
  | select s? =>
    cases s? with
    | none => exact Or.inl rfl
    | some s =>
      by_cases hs : s = []
      · left
        simp [propLine, hs]
      · right
        refine ⟨pyLower name ++ str ": " ++ s, ?_⟩
        show (if s = [] then [] else pyLower name ++ str ": " ++ s ++ str "\n") = _
        rw [if_neg hs, show (str "\n" : Str) = ['\n'] from rfl]
  | multi_select items =>
    by_cases hv : items.filter (fun v => v ≠ []) = []
    · left
      show (if items.filter (fun v => v ≠ []) = [] then ([] : Str)
        else pyLower name ++ str ": [" ++
          List.intercalate (str ", ")
            ((items.filter (fun v => v ≠ [])).map (fun v => str "\"" ++ v ++ str "\"")) ++
          str "]\n") = []
      rw [if_pos hv]
    · right
      refine ⟨pyLower name ++ str ": [" ++
        List.intercalate (str ", ")
          ((items.filter (fun v => v ≠ [])).map (fun v => str "\"" ++ v ++ str "\"")) ++ [']'],
        ?_⟩
      show (if items.filter (fun v => v ≠ []) = [] then ([] : Str)
        else pyLower name ++ str ": [" ++
          List.intercalate (str ", ")
            ((items.filter (fun v => v ≠ [])).map (fun v => str "\"" ++ v ++ str "\"")) ++
          str "]\n") = _
      rw [if_neg hv, show (str "]\n" : Str) = [']'] ++ ['\n'] from rfl]
      simp [List.append_assoc]
  | checkbox b =>
    right
    refine ⟨pyLower name ++ str ": " ++ (if b then str "true" else str "false"), ?_⟩
    show pyLower name ++ str ": " ++ (if b then str "true" else str "false") ++ str "\n" = _
    rw [show (str "\n" : Str) = ['\n'] from rfl]
  | date d? =>
    cases d? with
    | none => exact Or.inl rfl
    | some d =>
      by_cases hd : d = []
      · left
        simp [propLine, hd]
      · right
        refine ⟨pyLower name ++ str ": " ++ d, ?_⟩
        show (if d = [] then [] else pyLower name ++ str ": " ++ d ++ str "\n") = _
        rw [if_neg hd, show (str "\n" : Str) = ['\n'] from rfl]
  | unsupported => exact Or.inl rfl

theorem propLines_newline (props : List (Str × PropVal)) :
    propLines props = [] ∨ ∃ Y, propLines props = Y ++ ['\n'] := by
  induction props with
  | nil => exact Or.inl rfl
  | cons kv rest ih =>
    have hcons : propLines (kv :: rest) = propLine kv ++ propLines rest := by
      simp [propLines]
    rcases ih with h | ⟨Y, hY⟩
    · rw [hcons, h, List.append_nil]
      exact propLine_newline kv
    · exact Or.inr ⟨propLine kv ++ Y, by rw [hcons, hY, List.append_assoc]⟩

theorem fieldsOf_newline (props : List (Str × PropVal)) (pid ts : Str) :
    ∃ Y, fieldsOf props pid ts = Y ++ ['\n'] := by
  rcases propLines_newline props with h | ⟨Y, hY⟩
  · refine ⟨str "notion_id: " ++ pid ++ str "\n" ++ (str "last_edited_time: " ++ ts), ?_⟩
    rw [fieldsOf, h, List.append_nil, show (str "\n" : Str) = ['\n'] from rfl]
    simp [List.append_assoc]
  · refine ⟨str "notion_id: " ++ pid ++ str "\n" ++
      (str "last_edited_time: " ++ ts ++ str "\n") ++ Y, ?_⟩
    rw [fieldsOf, hY]
    simp [List.append_assoc]

theorem generate_frontmatter_decompose (props : List (Str × PropVal)) (pid ts : Str) :
    generate_frontmatter props pid ts =
      str "---\n" ++ fieldsOf props pid ts ++ str "---\n\n" := by
  simp [generate_frontmatter, fieldsOf, List.append_assoc]

/-- Inside the opening newline plus the field lines of a rendered
header, no window of three characters reads the delimiter: windows in
the fields are excluded by the no-occurrence hypothesis, windows
straddling the end hit the terminating newline. -/
theorem no_dashes_in_fields {F : Str} (B : Str)
    (hf : findSubAux F dashes 0 = none) (hnl : ∃ Y, F = Y ++ ['\n']) :
    ∀ j, j < 1 + F.length → dashes.isPrefixOf (('\n' :: (F ++ B)).drop j) = false := by
  intro j hj
  cases j with
  | zero =>
    rw [List.drop_zero]
    exact dashes_isPrefixOf_head_ne (by decide) _
  | succ m =>
    rw [List.drop_succ_cons]
    have hm : m < F.length := by omega
    rw [List.drop_append_eq_append_drop, show m - F.length = 0 from by omega, List.drop_zero]
    by_cases hcase : m + 3 ≤ F.length
    · cases htest : dashes.isPrefixOf (F.drop m ++ B) with
      | false => rfl
      | true =>
        exfalso
        have hlen : dashes.length ≤ (F.drop m).length := by
          simp only [dashes, List.length_cons, List.length_nil, List.length_drop]
          omega
        have hpref := isPrefixOf_append_left_of_le B htest hlen
        have hnone := findSubAux_eq_none_forall (by decide) hf m
        rw [hpref] at hnone
        exact Bool.noConfusion hnone
    · obtain ⟨Y, hY⟩ := hnl
      have hYlen : F.length = Y.length + 1 := by
        rw [hY]
        simp
      have hFdrop : F.drop m = Y.drop m ++ ['\n'] := by
        rw [hY, List.drop_append_eq_append_drop, show m - Y.length = 0 from by omega,
          List.drop_zero]
      rw [hFdrop, List.append_assoc, show (['\n'] ++ B : Str) = '\n' :: B from rfl]
      refine dashes_isPrefixOf_short ?_ B
      simp only [List.length_drop]
      omega

/-- extract_content_from_markdown on an abstract rendered file: the
fields contain no delimiter occurrence and end with a newline, so the
first delimiter found after the opening one is the closing delimiter,
and the function returns the stripped text that follows it. -/
theorem extract_content_fields {F : Str} (body : Str)
    (hf : findSubAux F dashes 0 = none) (hnl : ∃ Y, F = Y ++ ['\n']) :
    extract_content_from_markdown
        ('-' :: '-' :: '-' :: ('\n' :: (F ++ ('-' :: '-' :: '-' :: '\n' :: '\n' :: body)))) =
      pyStrip ('\n' :: '\n' :: body) := by
  have hpre : dashes.isPrefixOf
      ('-' :: '-' :: '-' :: ('\n' :: (F ++ ('-' :: '-' :: '-' :: '\n' :: '\n' :: body)))) =
      true := by
    simp [dashes, List.isPrefixOf]
  have hwin := no_dashes_in_fields (B := '-' :: '-' :: '-' :: '\n' :: '\n' :: body) hf hnl
  have hfind : findSubAux ('\n' :: (F ++ ('-' :: '-' :: '-' :: '\n' :: '\n' :: body))) dashes 3 =
      some (3 + (F.length + 1)) := by
    have hstep := findSubAux_append ('\n' :: F) ('-' :: '-' :: '-' :: '\n' :: '\n' :: body)
      dashes 3 (fun j hj => by
        have hj' : j < 1 + F.length := by simpa [Nat.add_comm] using hj
        have := hwin j hj'
        rwa [← List.cons_append] at this)
    rw [List.cons_append] at hstep
    rw [hstep, findSubAux_cons_pos (by simp [dashes, List.isPrefixOf])]
    simp [Nat.add_comm]
  simp only [extract_content_from_markdown, hpre, if_true]
  rw [show ('-' :: '-' :: '-' :: ('\n' :: (F ++ ('-' :: '-' :: '-' :: '\n' :: '\n' :: body)))
      : Str).drop 3 = '\n' :: (F ++ ('-' :: '-' :: '-' :: '\n' :: '\n' :: body)) from rfl]
  rw [hfind]
  dsimp only
  have hdropE : ('-' :: '-' :: '-' :: ('\n' :: (F ++
      ('-' :: '-' :: '-' :: '\n' :: '\n' :: body))) : Str).drop (3 + (F.length + 1) + 3) =
      '\n' :: '\n' :: body := by
    have h4 : ('-' :: '-' :: '-' :: ('\n' :: (F ++
        ('-' :: '-' :: '-' :: '\n' :: '\n' :: body))) : Str).drop 4 =
        F ++ ('-' :: '-' :: '-' :: '\n' :: '\n' :: body) := rfl
    calc ('-' :: '-' :: '-' :: ('\n' :: (F ++
        ('-' :: '-' :: '-' :: '\n' :: '\n' :: body))) : Str).drop (3 + (F.length + 1) + 3)
        = (('-' :: '-' :: '-' :: ('\n' :: (F ++
            ('-' :: '-' :: '-' :: '\n' :: '\n' :: body))) : Str).drop 4).drop (F.length + 3) := by
          rw [List.drop_drop]
          congr 1
          omega
      _ = (F ++ ('-' :: '-' :: '-' :: '\n' :: '\n' :: body)).drop (F.length + 3) := by rw [h4]
      _ = '\n' :: '\n' :: body := by
          rw [List.drop_append_eq_append_drop, List.drop_of_length_le (by omega),
            show F.length + 3 - F.length = 3 from by omega]
          rfl
  rw [hdropE]

theorem isPrefixOf_append_extend {sub X : Str} (Y : Str) (h : sub.isPrefixOf X = true) :
    sub.isPrefixOf (X ++ Y) = true := by
  induction sub generalizing X with
  | nil =>
    cases X with
    | nil => cases Y <;> rfl
    | cons x xs => rfl
  | cons s ss ih =>
    cases X with
    | nil => exact Bool.noConfusion h
    | cons x xs =>
      have h' : ((s == x) && ss.isPrefixOf xs) = true := h
      rw [Bool.and_eq_true] at h'
      show ((s == x) && ss.isPrefixOf (xs ++ Y)) = true
      rw [h'.1, ih h'.2]
      rfl

/-- Inside the opening newline plus the notion_id line of a rendered
header, no window of three characters reads the delimiter: the twelve
leading characters are not dashes, windows inside the id are excluded by
hypothesis, and windows straddling its end hit the newline. -/
theorem no_dashes_in_notion_line {id : Str} (B : Str)
    (hid : findSubAux id dashes 0 = none) :
    ∀ j, j < 13 + id.length →
      dashes.isPrefixOf (('\n' :: (str "notion_id: " ++ (id ++ '\n' :: B))).drop j) = false := by
  intro j hj
  by_cases h11 : j ≤ 11
  · interval_cases j <;> exact dashes_isPrefixOf_head_ne (by decide) _
  · obtain ⟨m, rfl⟩ : ∃ m, j = 12 + m := ⟨j - 12, by omega⟩
    have hmlen : m < id.length + 1 := by omega
    have hdrop12 : (('\n' :: (str "notion_id: " ++ (id ++ '\n' :: B))) : Str).drop (12 + m) =
        (id ++ '\n' :: B).drop m := by
      rw [← List.drop_drop]
      congr 1
    rw [hdrop12, List.drop_append_eq_append_drop, show m - id.length = 0 from by omega,
      List.drop_zero]
    by_cases hcase : m + 3 ≤ id.length
    · cases htest : dashes.isPrefixOf (id.drop m ++ '\n' :: B) with
      | false => rfl
      | true =>
        exfalso
        have hlen : dashes.length ≤ (id.drop m).length := by
          simp only [dashes, List.length_cons, List.length_nil, List.length_drop]
          omega
        have hpref := isPrefixOf_append_left_of_le _ htest hlen
        have hnone := findSubAux_eq_none_forall (by decide) hid m
        rw [hpref] at hnone
        exact Bool.noConfusion hnone
    · refine dashes_isPrefixOf_short ?_ B
      simp only [List.length_drop]
      omega

/-- extract_notion_id_from_frontmatter on an abstract rendered file: the
id contains no delimiter occurrence, no newline, and no leading or
trailing whitespace; whatever follows the notion_id line starts with a
non-dash character and contains a delimiter occurrence somewhere, so the
slice up to the first delimiter found keeps the notion_id line intact
and the stripped id is returned unchanged. -/
theorem extract_id_general {id : Str} (R : Str)
    (h1 : findSubAux id dashes 0 = none) (h2 : '\n' ∉ id)
    (h3 : id.dropWhile isPySpace = id) (h4 : (id.reverse.dropWhile isPySpace).reverse = id)
    (hocc : ∃ n, dashes.isPrefixOf (R.drop n) = true) :
    extract_notion_id_from_frontmatter
        ('-' :: '-' :: '-' :: ('\n' :: (str "notion_id: " ++ (id ++ '\n' :: 'l' :: R)))) =
      some id := by
  have hpre : dashes.isPrefixOf
      ('-' :: '-' :: '-' :: ('\n' :: (str "notion_id: " ++ (id ++ '\n' :: 'l' :: R)))) = true := by
    simp [dashes, List.isPrefixOf]
  have hA : ('\n' :: (str "notion_id: " ++ (id ++ ['\n']))) ++ ('l' :: R) =
      '\n' :: (str "notion_id: " ++ (id ++ '\n' :: 'l' :: R)) := by
    simp [List.append_assoc]
  have h11 : (str "notion_id: ").length = 11 := by decide
  have hlen : ('\n' :: (str "notion_id: " ++ (id ++ ['\n']))).length = 13 + id.length := by
    simp only [List.length_cons, List.length_append, List.length_nil, h11]
    omega
  have hwin := no_dashes_in_notion_line ('l' :: R) h1
  have hfind := findSubAux_append ('\n' :: (str "notion_id: " ++ (id ++ ['\n']))) ('l' :: R)
    dashes 3 (fun j hj => by
      rw [hA]
      exact hwin j (by rw [hlen] at hj; omega))
  obtain ⟨n, hn⟩ := hocc
  have hoccB : dashes.isPrefixOf (('l' :: R).drop (n + 1)) = true := by
    rwa [List.drop_succ_cons]
  have hsome : (findSubAux ('l' :: R) dashes
      (3 + ('\n' :: (str "notion_id: " ++ (id ++ ['\n']))).length)).isSome = true :=
    findSubAux_isSome_of_prefix hoccB
  obtain ⟨e, he⟩ := Option.isSome_iff_exists.mp hsome
  obtain ⟨d, hd, hdpref⟩ := findSubAux_eq_some_decompose he
  have hd0 : d ≠ 0 := by
    intro h0
    rw [h0, List.drop_zero] at hdpref
    have hfalse : dashes.isPrefixOf ('l' :: R) = false := dashes_isPrefixOf_head_ne (by decide) R
    rw [hdpref] at hfalse
    exact Bool.noConfusion hfalse
  obtain ⟨d', rfl⟩ : ∃ d', d = d' + 1 := ⟨d - 1, by omega⟩
  simp only [extract_notion_id_from_frontmatter, hpre, if_true]
  rw [show (('-' :: '-' :: '-' :: ('\n' :: (str "notion_id: " ++ (id ++ '\n' :: 'l' :: R))))
      : Str).drop 3 = ('\n' :: (str "notion_id: " ++ (id ++ ['\n']))) ++ ('l' :: R)
      from hA.symm]
  rw [hfind, he]
  dsimp only
  have hslice : pySlice
      ('-' :: '-' :: '-' :: ('\n' :: (str "notion_id: " ++ (id ++ '\n' :: 'l' :: R)))) 3 e =
      ('\n' :: (str "notion_id: " ++ (id ++ ['\n']))) ++ ('l' :: R.take d') := by
    unfold pySlice
    have hchain : ('-' :: '-' :: '-' :: ('\n' :: (str "notion_id: " ++ (id ++ '\n' :: 'l' :: R)))
        : Str) =
        ['-', '-', '-'] ++ (('\n' :: (str "notion_id: " ++ (id ++ ['\n']))) ++ ('l' :: R)) := by
      rw [hA]
      rfl
    rw [hchain, List.take_append_eq_append_take,
      show (['-', '-', '-'] : Str).length = 3 from rfl,
      List.take_of_length_le (show (['-', '-', '-'] : Str).length ≤ e from by simp; omega),
      List.take_append_eq_append_take,
      List.take_of_length_le
        (show ('\n' :: (str "notion_id: " ++ (id ++ ['\n']))).length ≤ e - 3 from by omega),
      show e - 3 - ('\n' :: (str "notion_id: " ++ (id ++ ['\n']))).length = d' + 1 from by omega,
      List.drop_left' (show (['-', '-', '-'] : Str).length = 3 from by decide)]
    rfl
  rw [hslice]
  have hsand : pyStrip
      (('\n' :: (str "notion_id: " ++ (id ++ ['\n']))) ++ ('l' :: R.take d')) =
      'n' :: (str "otion_id: " ++ (id ++ ['\n'])) ++
        'l' :: ((R.take d').reverse.dropWhile isPySpace).reverse :=
    pyStrip_sandwich (by decide) (by decide) (by decide)
      (str "otion_id: " ++ (id ++ ['\n'])) (R.take d')
  rw [hsand]
  have hfm : ('n' :: (str "otion_id: " ++ (id ++ ['\n'])) ++
      'l' :: ((R.take d').reverse.dropWhile isPySpace).reverse : Str) =
      (str "notion_id: " ++ id) ++
        '\n' :: ('l' :: ((R.take d').reverse.dropWhile isPySpace).reverse) := by
    rw [show (str "notion_id: " : Str) = 'n' :: str "otion_id: " from rfl]
    simp [List.append_assoc]
  have hnotinX : '\n' ∉ str "notion_id: " ++ id := by
    intro hmem
    rcases List.mem_append.mp hmem with h | h
    · exact absurd h (by decide)
    · exact h2 h
  rw [hfm, splitOnChar_append '\n' _ _ hnotinX]
  simp only [findNotionIdLine,
    isPrefixOf_append_extend id (show (str "notion_id:").isPrefixOf (str "notion_id: ") = true
      from by decide), if_true]
  rw [show splitFirst ':' (str "notion_id: " ++ id) = (str "notion_id", some (' ' :: id))
    from splitFirst_append ':' (str "notion_id") (' ' :: id) (by decide)]
  dsimp only
  have hstrip : pyStrip (' ' :: id) = id := by
    unfold pyStrip
    rw [List.dropWhile_cons_of_pos (by decide), h3, h4]
  rw [hstrip]

/-! ### Claim C2 -/

/-- Claim C2 (amended): header rendering composed with header parsing
recovers the identity, PROVIDED the id contains no occurrence of the
delimiter "---", no newline, and no leading or trailing whitespace
(real ids, hex digits with dashes stripped, satisfy all three; an id
containing "---" truncates the frontmatter slice, a newline truncates
the parsed line, surrounding whitespace is removed by .strip()).  Under
those conditions the recovery holds for every property list, timestamp
and appended body. -/
theorem c2_roundtrip_recovers_id (props : List (Str × PropVal)) (id ts body : Str)
    (h1 : findSubAux id dashes 0 = none) (h2 : '\n' ∉ id)
    (h3 : id.dropWhile isPySpace = id) (h4 : (id.reverse.dropWhile isPySpace).reverse = id) :
    extract_notion_id_from_frontmatter (generate_frontmatter props id ts ++ body) = some id := by
  have hsplit : generate_frontmatter props id ts ++ body =
      '-' :: '-' :: '-' :: ('\n' :: (str "notion_id: " ++ (id ++ '\n' :: 'l' ::
        (str "ast_edited_time: " ++ (ts ++ '\n' :: (propLines props ++
          ('-' :: '-' :: '-' :: '\n' :: '\n' :: body))))))) := by
    simp [generate_frontmatter,
      show (str "---\n" : Str) = ['-', '-', '-', '\n'] from rfl,
      show (str "\n" : Str) = ['\n'] from rfl,
      show (str "---\n\n" : Str) = ['-', '-', '-', '\n', '\n'] from rfl,
      show (str "last_edited_time: " : Str) = 'l' :: str "ast_edited_time: " from rfl,
      List.append_assoc]
  rw [hsplit]
  apply extract_id_general _ h1 h2 h3 h4
  refine ⟨(str "ast_edited_time: " ++ ts ++ ['\n'] ++ propLines props).length, ?_⟩
  rw [show str "ast_edited_time: " ++ (ts ++ '\n' :: (propLines props ++
        ('-' :: '-' :: '-' :: '\n' :: '\n' :: body))) =
      (str "ast_edited_time: " ++ ts ++ ['\n'] ++ propLines props) ++
        ('-' :: '-' :: '-' :: '\n' :: '\n' :: body) from by simp [List.append_assoc],
    List.drop_left]
  simp [dashes, List.isPrefixOf]

/-- Witness for C2 at a concrete id, property list, timestamp and body. -/
theorem c2_roundtrip_recovers_id_witness :
    (findSubAux (str "abc123") dashes 0 = none ∧ '\n' ∉ str "abc123" ∧
      (str "abc123").dropWhile isPySpace = str "abc123" ∧
      ((str "abc123").reverse.dropWhile isPySpace).reverse = str "abc123") ∧
    extract_notion_id_from_frontmatter
        (generate_frontmatter [(str "Status", PropVal.select (some (str "Done")))]
            (str "abc123") (str "2024-01-01") ++ str "# Title\n\nbody text\n") =
      some (str "abc123") :=
  ⟨⟨by decide, by decide, by decide, by decide⟩,
    c2_roundtrip_recovers_id [(str "Status", PropVal.select (some (str "Done")))]
      (str "abc123") (str "2024-01-01") (str "# Title\n\nbody text\n")
      (by decide) (by decide) (by decide) (by decide)⟩

/-- Counterexample for C2 as stated: for the id "---" (which contains
the delimiter) the round trip returns the empty string instead of the
id. -/
theorem c2_counterexample :
    extract_notion_id_from_frontmatter
        (generate_frontmatter [] (str "---") (str "t") ++ str "b") = some [] ∧
      some ([] : Str) ≠ some (str "---") :=
  ⟨by decide, by decide⟩

/-! ### Claim C9 -/

/-- Claim C9 (amended): for a file consisting of a rendered header
(whose field lines contain no occurrence of the delimiter "---")
followed by a body, extract_content_from_markdown returns the text
following the closing delimiter WITH LEADING AND TRAILING WHITESPACE
STRIPPED - not character for character: the code applies .strip() to
the returned slice. -/
theorem c9_extract_content_stripped (props : List (Str × PropVal)) (pid ts body : Str)
    (hf : findSubAux (fieldsOf props pid ts) dashes 0 = none) :
    extract_content_from_markdown (generate_frontmatter props pid ts ++ body) =
      pyStrip (str "\n\n" ++ body) := by
  have hsplit : generate_frontmatter props pid ts ++ body =
      '-' :: '-' :: '-' :: ('\n' :: (fieldsOf props pid ts ++
        ('-' :: '-' :: '-' :: '\n' :: '\n' :: body))) := by
    rw [generate_frontmatter_decompose,
      show (str "---\n" : Str) = ['-', '-', '-', '\n'] from rfl,
      show (str "---\n\n" : Str) = ['-', '-', '-', '\n', '\n'] from rfl]
    simp [List.append_assoc]
  rw [hsplit]
  exact extract_content_fields body hf (fieldsOf_newline props pid ts)

/-- Witness for C9 at a concrete header and body. -/
theorem c9_extract_content_stripped_witness :
    findSubAux (fieldsOf [(str "Tag", PropVal.select (some (str "x")))] (str "abc") (str "2024"))
        dashes 0 = none ∧
      extract_content_from_markdown
          (generate_frontmatter [(str "Tag", PropVal.select (some (str "x")))] (str "abc")
              (str "2024") ++ str "hello\nworld ") =
        pyStrip (str "\n\n" ++ str "hello\nworld ") :=
  ⟨by decide,
    c9_extract_content_stripped [(str "Tag", PropVal.select (some (str "x")))] (str "abc")
      (str "2024") (str "hello\nworld ") (by decide)⟩

/-- Counterexample for C9 as stated: on a concrete rendered file the
returned body is "hello", while the text following the closing
delimiter is "\n\nhello\n" - they differ, because the code strips. -/
theorem c9_counterexample :
    extract_content_from_markdown (str "---\nnotion_id: 1\n---\n\nhello\n") = str "hello" ∧
      findSubAux ((str "---\nnotion_id: 1\n---\n\nhello\n").drop 3) dashes 3 = some 17 ∧
      (str "---\nnotion_id: 1\n---\n\nhello\n").drop (17 + 3) = str "\n\nhello\n" ∧
      (str "hello" : Str) ≠ str "\n\nhello\n" :=
  ⟨by decide, by decide, by decide, by decide⟩

end NotionSync
